import Mathlib

/-!
# DOMO Port Forwarding Server: a shallow embedding of `port-forwarder.cpp`

The C++ class `PortForwarder` is embedded as a Lean structure with explicit state passing.
Calls into the operating system (socket, bind, accept, recv, ...) take their results from an
explicit environment and are recorded in a trace of events.
-/

/-! ## Text and the C library -/

/-- The predicate `isspace` of the C locale: space, `\t`, `\n`, `\v`, `\f`, `\r`. -/
def isspace (c : Char) : Bool :=
  c.toNat = 32 || (9 ≤ c.toNat && c.toNat ≤ 13)

/-- The predicate `isdigit`: the characters `0` to `9`. -/
def isdigit (c : Char) : Bool :=
  48 ≤ c.toNat && c.toNat ≤ 57

/-- The characters a C function sees behind `s.c_str()`: those before the first NUL. -/
def c_str (s : List Char) : List Char :=
  s.takeWhile (fun c => c.toNat != 0)

/-- The mathematical value of a run of decimal digits. -/
def digitsVal (ds : List Char) : Nat :=
  ds.foldl (fun acc c => 10 * acc + (c.toNat - 48)) 0

/-- The conversion `strtol` saturates at the bounds of a 64-bit `long`. -/
def clampLong (v : Int) : Int :=
  max (-(2 ^ 63)) (min v (2 ^ 63 - 1))

/-- The cast of a `long` to a 32-bit `int`: two's complement wrap-around. -/
def toInt32 (v : Int) : Int :=
  (v + 2 ^ 31) % 2 ^ 32 - 2 ^ 31

/-- The conversion `%s` of `sscanf`: skip white space, then take the longest run of
non-white-space characters. It fails (input failure) when the input ends first. -/
def scanStr (s : List Char) : Option (List Char × List Char) :=
  let s1 := s.dropWhile isspace
  if s1.isEmpty then none
  else some (s1.takeWhile (fun c => !isspace c), s1.dropWhile (fun c => !isspace c))

/-- The optional sign `%d` accepts: whether it is a minus, and the input after it. -/
def scanSign (s : List Char) : Bool × List Char :=
  match s with
  | c :: t => if c.toNat = 45 then (true, t) else if c.toNat = 43 then (false, t) else (false, s)
  | [] => (false, s)

/-- The conversion `%d` of `sscanf`: skip white space, accept one optional sign, then take the
longest run of decimal digits; it fails when there is no digit. The value is converted as by
`strtol` and stored in an `int`. -/
def scanInt (s : List Char) : Option (Int × List Char) :=
  let signed := scanSign (s.dropWhile isspace)
  let ds := signed.2.takeWhile isdigit
  if ds.isEmpty then none
  else
    let v : Int := if signed.1 then -(digitsVal ds : Int) else (digitsVal ds : Int)
    some (toInt32 (clampLong v), signed.2.dropWhile isdigit)

/-- The outcome of `sscanf(input, "%s %d %d %s", a, b, c, d)`: which arguments were assigned,
and with what. -/
inductive Scan where
  | eof : Scan
  | got1 (a : List Char) : Scan
  | got2 (a : List Char) (b : Int) : Scan
  | got3 (a : List Char) (b c : Int) : Scan
  | got4 (a : List Char) (b c : Int) (d : List Char) : Scan
  deriving DecidableEq, Repr

/-- The value `sscanf` returns: the number of arguments assigned, or `EOF` (-1) when the input
ended before the first conversion. -/
def Scan.ret : Scan → Int
  | .eof => -1
  | .got1 _ => 1
  | .got2 _ _ => 2
  | .got3 _ _ _ => 3
  | .got4 _ _ _ _ => 4

/-- Whether the call writes past the end of a destination. A conversion `%s` stores its token
and a terminating NUL. The first destination here is the array behind `c_str()` of an empty
`std::string`, with room for `cap` characters and the NUL; the fourth is `char protocol[size]`.
The first token is stored even when a later conversion fails. -/
def Scan.overruns (cap size : Nat) : Scan → Bool
  | .eof => false
  | .got1 a => cap < a.length
  | .got2 a _ => cap < a.length
  | .got3 a _ _ => cap < a.length
  | .got4 a _ _ d => cap < a.length || size < d.length + 1

/-- The call `sscanf(input, "%s %d %d %s", ...)`. A blank in the format skips any white space,
which the following conversion would skip anyway. -/
def sscanf (input : List Char) : Scan :=
  match scanStr input with
  | none => .eof
  | some (a, r1) =>
    match scanInt (r1.dropWhile isspace) with
    | none => .got1 a
    | some (b, r2) =>
      match scanInt (r2.dropWhile isspace) with
      | none => .got2 a b
      | some (c, r3) =>
        match scanStr (r3.dropWhile isspace) with
        | none => .got3 a b c
        | some (d, _) => .got4 a b c d

/-- The test `strcmp(p, q) == 0` on NUL-terminated strings. -/
def strcmpEq (p q : List Char) : Bool :=
  decide (p = q)

/-- A `std::string` object: its length and the characters held in its character array (up to
the terminating NUL). The value of the string is the first `size` characters of the array. -/
structure StdString where
  size : Nat
  storage : List Char
  deriving DecidableEq, Repr

/-- The default constructor: the empty string. -/
def StdString.empty : StdString := ⟨0, []⟩

/-- The value of the string as `std::string` operations see it (`size()` characters). -/
def StdString.str (s : StdString) : List Char := s.storage.take s.size

/-- What `sscanf` does to the array behind `const_cast<char*>(s.c_str())` when it stores a
token there: the characters land in the array, the length of the string object is untouched. -/
def StdString.pokeCStr (s : StdString) (tok : List Char) : StdString :=
  { s with storage := tok }

/-- The copy constructor: the copy holds the `size()` characters of the original (libstdc++;
a library that copies the whole array of a short string yields the same length and value). -/
def StdString.copy (s : StdString) : StdString := ⟨s.size, s.storage.take s.size⟩

/-! ## Data model -/

/-- Structure to hold forwarding configuration for each port. -/
structure ForwardConfig where
  localIP : StdString
  localPort : Int
  remotePort : Int
  isUDP : Bool
  deriving DecidableEq, Repr

/-- The copy constructor of `ForwardConfig` (member-wise copy). -/
def ForwardConfig.copy (c : ForwardConfig) : ForwardConfig :=
  { c with localIP := c.localIP.copy }

/-- The state of a `PortForwarder` object. -/
structure PortForwarder where
  configs : List ForwardConfig
  sockets : List Int
  running : Bool
  deriving DecidableEq, Repr

namespace PortForwarder

/-- The constructor `PortForwarder() : running(false) {}`. -/
def new : PortForwarder := ⟨[], [], false⟩

/-- The body of the `while (std::getline(file, line))` loop of `loadConfig`; the branch `got4`
is the test `sscanf(...) == 4`. The first token is stored behind `config.localIP.c_str()`, the
last one in `char protocol[10]`, both without a field width. `cap` is the number of characters
the array of a default-constructed `std::string` holds before its NUL, a constant of the C++
library (15 in libstdc++). The result is `none` when a token overruns its destination: the
behaviour is then undefined and the call yields no rule list. -/
def loadLine (cap : Nat) (configs : List ForwardConfig) (line : List Char) :
    Option (List ForwardConfig) :=
  -- Skip empty lines and comments
  if line.isEmpty || line.head? = some (Char.ofNat 35) then some configs
  else
    let scan := sscanf (c_str line)
    if scan.overruns cap 10 then none
    else
      match scan with
      | .got4 ip lp rp protocol =>
        let config : ForwardConfig :=
          { localIP := StdString.empty.pokeCStr ip
            localPort := lp
            remotePort := rp
            isUDP := strcmpEq protocol "UDP".toList }
        some (configs ++ [config.copy])
      | _ => some configs

/-- The loop of `loadConfig` over the lines of an open file; it does not go on past a line
that overruns a destination. -/
def loadLines (cap : Nat) (configs : List ForwardConfig) :
    List (List Char) → Option (List ForwardConfig)
  | [] => some configs
  | line :: rest =>
    match loadLine cap configs line with
    | none => none
    | some configs1 => loadLines cap configs1 rest

/-- The method `loadConfig`: `file` is `none` when the file cannot be opened, else its lines.
The result is the value returned and the object afterwards, or `none` when a line overruns a
destination. -/
def loadConfig (cap : Nat) (self : PortForwarder) (file : Option (List (List Char))) :
    Option (Bool × PortForwarder) :=
  match file with
  | none => some (false, self)
  | some lines =>
    match loadLines cap self.configs lines with
    | none => none
    | some configs => some (!configs.isEmpty, { self with configs := configs })

end PortForwarder

/-! ## The operating system -/

/-- The two socket types the program asks for. -/
inductive SockType where
  | stream
  | dgram
  deriving DecidableEq, Repr

/-- The two socket options the program sets. -/
inductive SockOpt where
  | reuseaddr
  | broadcast
  deriving DecidableEq, Repr

/-- A call the program makes, as recorded in its trace. The address of `bind` is the text handed
to `inet_addr`; ports are the 16-bit numbers that `htons` receives. -/
inductive Event where
  | socket (ty : SockType) (ret : Int)
  | setsockopt (fd : Int) (opt : SockOpt)
  | bind (fd : Int) (addr : List Char) (port : Nat)
  | listen (fd : Int) (backlog : Nat)
  | accept (fd : Int)
  | connect (fd : Int) (addr : Nat) (port : Nat)
  | recv (fd : Int) (len : Nat)
  | send (fd : Int) (bytes : List Char)
  | sendto (fd : Int) (bytes : List Char) (addr : Nat) (port : Nat)
  | close (fd : Int)
  | spawnRelay (client : Int) (config : ForwardConfig)
  | syslog (msg : String)
  | closelog
  deriving DecidableEq, Repr

/-- The address `INADDR_BROADCAST`, 255.255.255.255. -/
def INADDR_BROADCAST : Nat := 0xffffffff

/-- The port number `htons` receives from an `int`: the conversion to `uint16_t`. -/
def htons (port : Int) : Nat := (port % 65536).toNat

/-- What one call of `recv` meets: bytes handed over by the kernel (none at all when the peer
has shut down, or for an empty datagram), or an error. -/
inductive RecvOutcome where
  | bytes (bs : List Char)
  | error
  deriving DecidableEq, Repr

/-- The call `recv(fd, buffer, len, 0)`: the value returned and the buffer afterwards. At most
`len` bytes are stored; what a datagram holds beyond that is discarded. -/
def recv (o : RecvOutcome) (buffer : List Char) (len : Nat) : Int × List Char :=
  match o with
  | .bytes bs => ((min bs.length len : Nat), bs.take len ++ buffer.drop (min bs.length len))
  | .error => (-1, buffer)

/-- The trace of a task and whether the task has returned (it has not when it is still blocked
in a system call at the end of the observed environment). -/
structure Run where
  trace : List Event
  finished : Bool
  deriving DecidableEq, Repr

/-- The calls of `close` in a trace, in order. -/
def closes : List Event → List Int
  | [] => []
  | .close fd :: t => fd :: closes t
  | _ :: t => closes t

/-- The calls of `send` in a trace, in order: descriptor and bytes. -/
def sends : List Event → List (Int × List Char)
  | [] => []
  | .send fd bs :: t => (fd, bs) :: sends t
  | _ :: t => sends t

/-- The calls of `sendto` in a trace, in order: descriptor, bytes, address and port. -/
def sendtos : List Event → List (Int × List Char × Nat × Nat)
  | [] => []
  | .sendto fd bs a p :: t => (fd, bs, a, p) :: sendtos t
  | _ :: t => sendtos t

namespace PortForwarder

/-! ## The TCP relay task (the lambda of `forwardTCP`) -/

/-- What one turn of a receive loop observes: the value of `running` at the loop test and what
`recv` meets if it is called. -/
structure RecvIter where
  running : Bool
  recv : RecvOutcome
  deriving DecidableEq, Repr

/-- The environment of one relay task: the results of `socket` and `connect`, the content of
the uninitialised buffer, and the turns of the copy loop. -/
structure RelayEnv where
  socketRet : Int
  connectRet : Int
  buffer : List Char
  iters : List RecvIter
  deriving DecidableEq, Repr

/-- The copy loop `while (running) { recv; if (received <= 0) break; send; }`. -/
def relayLoop (client broadcast : Int) (buffer : List Char) : List RecvIter → Run
  | [] => ⟨[], false⟩
  | it :: rest =>
    if !it.running then ⟨[], true⟩
    else
      let r := recv it.recv buffer 4096
      if r.1 ≤ 0 then ⟨[.recv client 4096], true⟩
      else
        let k := relayLoop client broadcast r.2 rest
        ⟨.recv client 4096 :: .send broadcast (r.2.take r.1.toNat) :: k.trace, k.finished⟩

/-- The relay task spawned for one accepted client. -/
def relay (client : Int) (config : ForwardConfig) (env : RelayEnv) : Run :=
  let broadcast := env.socketRet
  if broadcast < 0 then
    ⟨[.socket .stream broadcast, .close client], true⟩
  else if env.connectRet < 0 then
    ⟨[.socket .stream broadcast,
      .connect broadcast INADDR_BROADCAST (htons config.remotePort),
      .close client, .close broadcast], true⟩
  else
    let k := relayLoop client broadcast env.buffer env.iters
    ⟨[.socket .stream broadcast, .connect broadcast INADDR_BROADCAST (htons config.remotePort)]
       ++ k.trace ++ (if k.finished then [.close client, .close broadcast] else []),
     k.finished⟩

/-! ## The TCP worker -/

/-- What one turn of the accept loop observes: the value of `running` at the loop test and the
result of `accept` if it is called. -/
structure AcceptIter where
  running : Bool
  accept : Int
  deriving DecidableEq, Repr

/-- The environment of a TCP worker. -/
structure TcpEnv where
  socketRet : Int
  bindRet : Int
  iters : List AcceptIter
  deriving DecidableEq, Repr

/-- The loop `while (running) { accept; if (client < 0) continue; std::thread(...).detach(); }`. -/
def acceptLoop (sock : Int) (config : ForwardConfig) : List AcceptIter → Run
  | [] => ⟨[], false⟩
  | it :: rest =>
    if !it.running then ⟨[], true⟩
    else
      let client := it.accept
      let k := acceptLoop sock config rest
      if client < 0 then ⟨.accept sock :: k.trace, k.finished⟩
      else ⟨.accept sock :: .spawnRelay client config.copy :: k.trace, k.finished⟩

/-- The method `forwardTCP`: its run and the object afterwards. -/
def forwardTCP (self : PortForwarder) (config : ForwardConfig) (env : TcpEnv) :
    Run × PortForwarder :=
  let sock := env.socketRet
  if sock < 0 then
    (⟨[.socket .stream sock, .syslog "Failed to create TCP socket"], true⟩, self)
  else
    let pre : List Event :=
      [.socket .stream sock, .setsockopt sock .reuseaddr,
       .bind sock (c_str config.localIP.storage) (htons config.localPort)]
    if env.bindRet < 0 then
      (⟨pre ++ [.syslog "Failed to bind TCP socket", .close sock], true⟩, self)
    else
      let k := acceptLoop sock config env.iters
      (⟨pre ++ [.listen sock 5] ++ k.trace, k.finished⟩,
       { self with sockets := self.sockets ++ [sock] })

/-! ## The UDP worker -/

/-- The environment of a UDP worker. -/
structure UdpEnv where
  socketRet : Int
  bindRet : Int
  buffer : List Char
  iters : List RecvIter
  deriving DecidableEq, Repr

/-- The loop `while (running) { recv; if (received <= 0) continue; sendto; }`. -/
def udpLoop (sock : Int) (port : Nat) (buffer : List Char) : List RecvIter → Run
  | [] => ⟨[], false⟩
  | it :: rest =>
    if !it.running then ⟨[], true⟩
    else
      let r := recv it.recv buffer 4096
      let k := udpLoop sock port r.2 rest
      if r.1 ≤ 0 then ⟨.recv sock 4096 :: k.trace, k.finished⟩
      else
        ⟨.recv sock 4096 :: .sendto sock (r.2.take r.1.toNat) INADDR_BROADCAST port :: k.trace,
         k.finished⟩

/-- The method `forwardUDP`: its run and the object afterwards. -/
def forwardUDP (self : PortForwarder) (config : ForwardConfig) (env : UdpEnv) :
    Run × PortForwarder :=
  let sock := env.socketRet
  if sock < 0 then
    (⟨[.socket .dgram sock, .syslog "Failed to create UDP socket"], true⟩, self)
  else
    let pre : List Event :=
      [.socket .dgram sock, .setsockopt sock .reuseaddr, .setsockopt sock .broadcast,
       .bind sock (c_str config.localIP.storage) (htons config.localPort)]
    if env.bindRet < 0 then
      (⟨pre ++ [.syslog "Failed to bind UDP socket", .close sock], true⟩, self)
    else
      let k := udpLoop sock (htons config.remotePort) env.buffer env.iters
      (⟨pre ++ k.trace, k.finished⟩, { self with sockets := self.sockets ++ [sock] })

/-! ## The engine -/

/-- The method `stop`: the calls it makes and the object afterwards. -/
def stop (self : PortForwarder) : List Event × PortForwarder :=
  (self.sockets.map Event.close ++ [.closelog], { self with running := false, sockets := [] })

end PortForwarder

/-! ## Definitions used to state the properties -/

/-- The value a call of `recv` with a 4096-byte buffer returns. -/
def retOf (o : RecvOutcome) : Int :=
  match o with
  | .bytes bs => (min bs.length 4096 : Nat)
  | .error => -1

/-- The bytes a call of `recv` with a 4096-byte buffer hands to its caller. -/
def chunkOf (o : RecvOutcome) : List Char :=
  match o with
  | .bytes bs => bs.take 4096
  | .error => []

/-- A turn at which a receive loop that breaks on `received <= 0` ends: `running` is observed
false, or `recv` returns zero or a negative value. -/
def stopsRelay (it : PortForwarder.RecvIter) : Bool :=
  !it.running || decide (retOf it.recv ≤ 0)

/-- The chunks received before the first turn that ends the copy loop. -/
def chunksBeforeStop (iters : List PortForwarder.RecvIter) : List (List Char) :=
  (iters.takeWhile (fun it => !stopsRelay it)).map (fun it => chunkOf it.recv)

/-- The `sendto` a UDP worker on `sock` for a rule with remote port `remotePort` owes to one
turn of its loop: none when `recv` returns zero or a negative value, else one, to the broadcast
address, carrying the bytes `recv` stored (the first 4096 of the datagram). -/
def owedSendto (sock : Int) (remotePort : Int) (it : PortForwarder.RecvIter) :
    Option (Int × List Char × Nat × Nat) :=
  match it.recv with
  | .bytes bs =>
    if bs.isEmpty then none
    else some (sock, bs.take 4096, 0xffffffff, (remotePort % 65536).toNat)
  | .error => none

/-- The rule of the scenario `192.168.1.10 5000 6000 TCP`, as `loadConfig` stores it. -/
def tcpRule : ForwardConfig := ⟨⟨0, []⟩, 5000, 6000, false⟩

/-- The rule of the scenario `192.168.1.10 5001 6001 UDP`, as `loadConfig` stores it. -/
def udpRule : ForwardConfig := ⟨⟨0, []⟩, 5001, 6001, true⟩

/-- The token `sscanf` stored through its first argument, if any. -/
def Scan.first : Scan → Option (List Char)
  | .eof => none
  | .got1 a => some a
  | .got2 a _ => some a
  | .got3 a _ _ => some a
  | .got4 a _ _ _ => some a

/-- Every character is white space. -/
def AllSpace (w : List Char) : Prop := ∀ c ∈ w, isspace c = true

/-- No character is white space. -/
def NoSpace (t : List Char) : Prop := ∀ c ∈ t, isspace c = false

/-- The text does not start with a digit (it may be empty). -/
def StartsNonDigit (r : List Char) : Prop := ∀ c ∈ r.head?, isdigit c = false

/-- The text starts with white space, or is empty. -/
def StartsSpace (r : List Char) : Prop := ∀ c ∈ r.head?, isspace c = true

/-- The number a run of decimal digits denotes, most significant digit first. -/
def decimalValue (ds : List Char) : Nat :=
  Nat.ofDigits 10 ((ds.map (fun c => c.toNat - 48)).reverse)

/-- The text `n` is an integer text denoting `v`: an optional sign `-` or `+` and at least one
decimal digit. -/
def IntTextValue (n : List Char) (v : Int) : Prop :=
  ∃ ds : List Char, ds ≠ [] ∧ (∀ c ∈ ds, isdigit c = true)
    ∧ ((n = ds ∧ v = decimalValue ds)
      ∨ (n = Char.ofNat 45 :: ds ∧ v = -(decimalValue ds : Int))
      ∨ (n = Char.ofNat 43 :: ds ∧ v = decimalValue ds))

/-- The first token of a text: after optional white space, a non-empty run without white
space, ended by white space or by the end of the text. -/
def FirstToken (s ip : List Char) : Prop :=
  ∃ w0 t1, s = w0 ++ (ip ++ t1) ∧ AllSpace w0 ∧ ip ≠ [] ∧ NoSpace ip ∧ StartsSpace t1

/-- The text `s` reads as the token `ip`, the integers `lp` and `rp` and the token `proto`:
optional white space, `ip`, white space, an integer text denoting `lp` and not followed by a
digit, optional white space, an integer text denoting `rp` and not followed by a digit,
optional white space, `proto` (ended by white space or the end of the text), and anything. -/
def Scanned (s ip : List Char) (lp rp : Int) (proto : List Char) : Prop :=
  ∃ w0 t1, s = w0 ++ (ip ++ t1) ∧ AllSpace w0 ∧ ip ≠ [] ∧ NoSpace ip ∧
  ∃ w1 n1 t2, t1 = w1 ++ (n1 ++ t2) ∧ w1 ≠ [] ∧ AllSpace w1 ∧ IntTextValue n1 lp
    ∧ StartsNonDigit t2 ∧
  ∃ w2 n2 t3, t2 = w2 ++ (n2 ++ t3) ∧ AllSpace w2 ∧ IntTextValue n2 rp ∧ StartsNonDigit t3 ∧
  ∃ w3 t4, t3 = w3 ++ (proto ++ t4) ∧ AllSpace w3 ∧ proto ≠ [] ∧ NoSpace proto ∧ StartsSpace t4

/-- A line that reads as a rule: not empty, not starting with `#`, and its text before the
first NUL reads as a token, two integers and a token. -/
def Parses (line : List Char) : Prop :=
  line ≠ [] ∧ line.head? ≠ some (Char.ofNat 35)
    ∧ ∃ ip lp rp proto, Scanned (c_str line) ip lp rp proto

/-- A line none of whose tokens overruns its destination: it is empty or a comment, or its
first token has at most `cap` characters and, when it reads as a rule, its last token has at
most 9 characters (`char protocol[10]`). -/
def Fits (cap : Nat) (line : List Char) : Prop :=
  line = [] ∨ line.head? = some (Char.ofNat 35)
    ∨ ((∀ ip, FirstToken (c_str line) ip → ip.length ≤ cap)
      ∧ (∀ ip lp rp proto, Scanned (c_str line) ip lp rp proto → proto.length ≤ 9))

/-- The value an `int` receives from `%d` for an integer text denoting `v`: `v` itself when it
is in the range of `int`. -/
def storedInt (v : Int) : Int := toInt32 (clampLong v)

/-- The rules a sequence of lines yields: none for a line that does not read as a rule, and for
a line that reads as `ip lp rp proto` one rule with ports `lp` and `rp` as stored in an `int`
and `isUDP` true exactly for the token `UDP`, in the order of the lines. The `localIP` of the
rule is left open. -/
inductive Collects : List (List Char) → List ForwardConfig → Prop where
  | nil : Collects [] []
  | skip (line : List Char) (rest : List (List Char)) (rules : List ForwardConfig) :
      ¬ Parses line → Collects rest rules → Collects (line :: rest) rules
  | take (line : List Char) (rest : List (List Char)) (rules : List ForwardConfig)
      (ip : List Char) (lp rp : Int) (proto : List Char) (rule : ForwardConfig) :
      line ≠ [] → line.head? ≠ some (Char.ofNat 35) → Scanned (c_str line) ip lp rp proto →
      rule.localPort = storedInt lp → rule.remotePort = storedInt rp →
      rule.isUDP = decide (proto = "UDP".toList) →
      Collects rest rules → Collects (line :: rest) (rule :: rules)

/-- The white-space-separated fields of a line; `cur` holds (reversed) the field being read. -/
def specFields (cur : List Char) : List Char → List (List Char)
  | [] => if cur.isEmpty then [] else [cur.reverse]
  | c :: t =>
    if isspace c then (if cur.isEmpty then specFields [] t else cur.reverse :: specFields [] t)
    else specFields (c :: cur) t

/-! ## Theorems -/

namespace PortForwarder

theorem sscanf_ret_eq_four (s : List Char) :
    (sscanf s).ret = 4 ↔ ∃ a b c d, sscanf s = .got4 a b c d := by
  cases h : sscanf s <;> simp [Scan.ret]

theorem storedInt_of_int_range (v : Int) (h1 : -2147483648 ≤ v) (h2 : v ≤ 2147483647) :
    storedInt v = v := by
  have hc : clampLong v = v := by
    unfold clampLong
    rw [min_eq_left (by omega), max_eq_right (by omega)]
  unfold storedInt toInt32
  rw [hc]
  omega

theorem takeWhile_append_of_all {p : Char → Bool} (w r : List Char)
    (hw : ∀ c ∈ w, p c = true) (hr : ∀ c ∈ r.head?, p c = false) :
    (w ++ r).takeWhile p = w ∧ (w ++ r).dropWhile p = r := by
  induction w with
  | nil =>
    cases r with
    | nil => simp
    | cons c t =>
      have : p c = false := hr c (by simp)
      simp [this]
  | cons a w ih =>
    have ha : p a = true := hw a (by simp)
    have := ih (fun c hc => hw c (by simp [hc]))
    simp [ha, this]

theorem isdigit_not_isspace (c : Char) (h : isdigit c = true) : isspace c = false := by
  simp only [isdigit, isspace, Bool.and_eq_true, decide_eq_true_eq, Bool.or_eq_false_iff,
    decide_eq_false_iff_not, Bool.and_eq_false_iff] at *
  omega

theorem scanStr_append (w a r : List Char) (hw : AllSpace w) (ha : a ≠ []) (hns : NoSpace a)
    (hr : ∀ c ∈ r.head?, isspace c = true) : scanStr (w ++ (a ++ r)) = some (a, r) := by
  have h1 : (w ++ (a ++ r)).dropWhile isspace = a ++ r := by
    refine (takeWhile_append_of_all w (a ++ r) hw ?_).2
    cases a with
    | nil => exact absurd rfl ha
    | cons x t =>
      intro c hc
      simp at hc
      subst hc
      exact hns _ (by simp)
  have h2 := takeWhile_append_of_all (p := fun c => !isspace c) a r
    (by intro c hc; simp [hns c hc]) (by intro c hc; simp [hr c hc])
  have h3 : (a ++ r).isEmpty = false := by
    cases a with
    | nil => exact absurd rfl ha
    | cons x t => rfl
  simp [scanStr, h1, h2, h3]

theorem scanStr_decomp (s a r : List Char) (h : scanStr s = some (a, r)) :
    ∃ w, s = w ++ (a ++ r) ∧ AllSpace w ∧ a ≠ [] ∧ NoSpace a
      ∧ (∀ c ∈ r.head?, isspace c = true) := by
  unfold scanStr at h
  simp only [] at h
  split at h
  · simp at h
  · rename_i hne
    simp only [Option.some.injEq, Prod.mk.injEq] at h
    obtain ⟨h1, h2⟩ := h
    refine ⟨s.takeWhile isspace, ?_, ?_, ?_, ?_, ?_⟩
    · rw [← h1, ← h2, List.takeWhile_append_dropWhile, List.takeWhile_append_dropWhile]
    · intro c hc
      exact List.mem_takeWhile_imp hc
    · rw [← h1]
      cases hd : s.dropWhile isspace with
      | nil => simp [hd] at hne
      | cons x t =>
        have hx : isspace x = false := by
          have := List.head_dropWhile_not isspace s (by simp [hd])
          simpa [hd] using this
        simp [hx]
    · intro c hc
      rw [← h1] at hc
      simpa using List.mem_takeWhile_imp hc
    · intro c hc
      rw [← h2] at hc
      have := List.head?_dropWhile_not (fun c => !isspace c) (s.dropWhile isspace)
      simp only [Option.mem_def] at hc
      rw [hc] at this
      simpa using this

theorem digitsVal_foldl (ds : List Char) (a : Nat) :
    ds.foldl (fun acc c => 10 * acc + (c.toNat - 48)) a
      = a * 10 ^ ds.length + decimalValue ds := by
  induction ds generalizing a with
  | nil => simp [decimalValue]
  | cons c t ih =>
    rw [List.foldl_cons, ih]
    have h : decimalValue (c :: t) = decimalValue t + 10 ^ t.length * (c.toNat - 48) := by
      simp [decimalValue, Nat.ofDigits_append]
    rw [h, List.length_cons]
    ring

theorem digitsVal_eq (ds : List Char) : digitsVal ds = decimalValue ds := by
  simp [digitsVal, digitsVal_foldl]

theorem scanSign_decomp (s : List Char) :
    (s = (scanSign s).2 ∧ (scanSign s).1 = false)
    ∨ (s = Char.ofNat 45 :: (scanSign s).2 ∧ (scanSign s).1 = true)
    ∨ (s = Char.ofNat 43 :: (scanSign s).2 ∧ (scanSign s).1 = false) := by
  cases s with
  | nil => simp [scanSign]
  | cons c t =>
    unfold scanSign
    by_cases h1 : c.toNat = 45
    · have : c = Char.ofNat 45 := by rw [← h1, Char.ofNat_toNat]
      simp [h1, this]
    · by_cases h2 : c.toNat = 43
      · have : c = Char.ofNat 43 := by rw [← h2, Char.ofNat_toNat]
        simp [h2, this]
      · simp [h1, h2]

theorem scanSign_of_digit (c : Char) (t : List Char) (h : isdigit c = true) :
    scanSign (c :: t) = (false, c :: t) := by
  have : c.toNat ≠ 45 ∧ c.toNat ≠ 43 := by
    simp only [isdigit, Bool.and_eq_true, decide_eq_true_eq] at h
    omega
  simp [scanSign, this.1, this.2]

theorem scanInt_decomp (s r : List Char) (v : Int) (h : scanInt s = some (v, r)) :
    ∃ w n v0, s = w ++ (n ++ r) ∧ AllSpace w ∧ IntTextValue n v0 ∧ v = storedInt v0
      ∧ StartsNonDigit r := by
  unfold scanInt at h
  simp only [] at h
  split at h
  · simp at h
  · rename_i hne
    simp only [Option.some.injEq, Prod.mk.injEq] at h
    obtain ⟨hv, h2⟩ := h
    have hds : (scanSign (s.dropWhile isspace)).2
        = (scanSign (s.dropWhile isspace)).2.takeWhile isdigit ++ r := by
      rw [← h2, List.takeWhile_append_dropWhile]
    have hdig : ∀ c ∈ (scanSign (s.dropWhile isspace)).2.takeWhile isdigit, isdigit c = true :=
      fun c hc => List.mem_takeWhile_imp hc
    have hnonempty : (scanSign (s.dropWhile isspace)).2.takeWhile isdigit ≠ [] := by
      intro h0; simp [h0] at hne
    have hr : StartsNonDigit r := by
      intro c hc
      rw [← h2] at hc
      have := List.head?_dropWhile_not isdigit (scanSign (s.dropWhile isspace)).2
      simp only [Option.mem_def] at hc
      rw [hc] at this
      simpa using this
    have hs : s = s.takeWhile isspace ++ s.dropWhile isspace :=
      (List.takeWhile_append_dropWhile isspace s).symm
    have hw : AllSpace (s.takeWhile isspace) := fun c hc => List.mem_takeWhile_imp hc
    rcases scanSign_decomp (s.dropWhile isspace) with ⟨h3, h4⟩ | ⟨h3, h4⟩ | ⟨h3, h4⟩
    · refine ⟨s.takeWhile isspace, (scanSign (s.dropWhile isspace)).2.takeWhile isdigit,
        _, ?_, hw, ⟨_, hnonempty, hdig, Or.inl ⟨rfl, rfl⟩⟩, ?_, hr⟩
      · rw [← hds, ← h3]
        exact hs
      · rw [← hv, h4, digitsVal_eq]
        simp [storedInt]
    · refine ⟨s.takeWhile isspace,
        Char.ofNat 45 :: (scanSign (s.dropWhile isspace)).2.takeWhile isdigit,
        _, ?_, hw, ⟨_, hnonempty, hdig, Or.inr (Or.inl ⟨rfl, rfl⟩)⟩, ?_, hr⟩
      · rw [List.cons_append, ← hds, ← h3]
        exact hs
      · rw [← hv, h4, digitsVal_eq]
        simp [storedInt]
    · refine ⟨s.takeWhile isspace,
        Char.ofNat 43 :: (scanSign (s.dropWhile isspace)).2.takeWhile isdigit,
        _, ?_, hw, ⟨_, hnonempty, hdig, Or.inr (Or.inr ⟨rfl, rfl⟩)⟩, ?_, hr⟩
      · rw [List.cons_append, ← hds, ← h3]
        exact hs
      · rw [← hv, h4, digitsVal_eq]
        simp [storedInt]

theorem scanInt_core (s : List Char) (b : Bool) (ds r : List Char)
    (h : scanSign (s.dropWhile isspace) = (b, ds ++ r)) (hne : ds ≠ [])
    (hdig : ∀ c ∈ ds, isdigit c = true) (hr : StartsNonDigit r) :
    scanInt s
      = some (storedInt (if b then -(decimalValue ds : Int) else (decimalValue ds : Int)), r) := by
  have hsplit := takeWhile_append_of_all (p := isdigit) ds r hdig hr
  have hdsne : ds.isEmpty = false := by
    cases ds with
    | nil => exact absurd rfl hne
    | cons x t => rfl
  unfold scanInt
  simp only [h, hsplit.1, hsplit.2, hdsne, digitsVal_eq, storedInt]
  rfl

theorem scanInt_append (w n r : List Char) (v0 : Int) (hw : AllSpace w)
    (hn : IntTextValue n v0) (hr : StartsNonDigit r) :
    scanInt (w ++ (n ++ r)) = some (storedInt v0, r) := by
  obtain ⟨ds, hne, hdig, hform⟩ := hn
  obtain ⟨x, t, hxt⟩ : ∃ x t, ds = x :: t := by
    cases ds with
    | nil => exact absurd rfl hne
    | cons x t => exact ⟨x, t, rfl⟩
  have hx : isdigit x = true := hdig x (by simp [hxt])
  have hdrop : ∀ c : Char, isspace c = false → ∀ rest : List Char,
      (w ++ (c :: rest)).dropWhile isspace = c :: rest := by
    intro c hc rest
    refine (takeWhile_append_of_all w (c :: rest) hw ?_).2
    intro d hd
    simp at hd
    simpa [← hd] using hc
  rcases hform with ⟨h, hv⟩ | ⟨h, hv⟩ | ⟨h, hv⟩
  · rw [scanInt_core _ false ds r ?_ hne hdig hr, hv]
    · rfl
    · rw [h, hxt, List.cons_append, hdrop x (isdigit_not_isspace x hx)]
      exact scanSign_of_digit x _ hx
  · rw [scanInt_core _ true ds r ?_ hne hdig hr, hv]
    · rfl
    · rw [h, List.cons_append, hdrop _ (by decide)]
      simp [scanSign]
  · rw [scanInt_core _ false ds r ?_ hne hdig hr, hv]
    · rfl
    · rw [h, List.cons_append, hdrop _ (by decide)]
      simp [scanSign]

theorem dropWhile_dropWhile (p : Char → Bool) (s : List Char) :
    (s.dropWhile p).dropWhile p = s.dropWhile p := by
  induction s with
  | nil => rfl
  | cons c t ih =>
    by_cases h : p c = true
    · simp [h, ih]
    · simp [h]

theorem scanInt_dropWhile (s : List Char) : scanInt (s.dropWhile isspace) = scanInt s := by
  simp [scanInt, dropWhile_dropWhile]

theorem scanStr_dropWhile (s : List Char) : scanStr (s.dropWhile isspace) = scanStr s := by
  simp [scanStr, dropWhile_dropWhile]

theorem sscanf_eq (s : List Char) :
    sscanf s =
      match scanStr s with
      | none => .eof
      | some (a, r1) =>
        match scanInt r1 with
        | none => .got1 a
        | some (b, r2) =>
          match scanInt r2 with
          | none => .got2 a b
          | some (c, r3) =>
            match scanStr r3 with
            | none => .got3 a b c
            | some (d, _) => .got4 a b c d := by
  simp only [sscanf, scanInt_dropWhile, scanStr_dropWhile]

theorem sscanf_first (s : List Char) : (sscanf s).first = (scanStr s).map Prod.fst := by
  rw [sscanf_eq]
  cases e1 : scanStr s with
  | none => rfl
  | some p1 =>
    obtain ⟨a, r1⟩ := p1
    cases e2 : scanInt r1 with
    | none => simp [e2, Scan.first]
    | some p2 =>
      obtain ⟨b, r2⟩ := p2
      cases e3 : scanInt r2 with
      | none => simp [e2, e3, Scan.first]
      | some p3 =>
        obtain ⟨c, r3⟩ := p3
        cases e4 : scanStr r3 with
        | none => simp [e2, e3, e4, Scan.first]
        | some p4 => simp [e2, e3, e4, Scan.first]

theorem intTextValue_head (n : List Char) (v : Int) (h : IntTextValue n v) :
    ∃ c t, n = c :: t ∧ isspace c = false := by
  obtain ⟨ds, hne, hdig, hform⟩ := h
  rcases hform with ⟨h, -⟩ | ⟨h, -⟩ | ⟨h, -⟩
  · cases ds with
    | nil => exact absurd rfl hne
    | cons x t => exact ⟨x, t, h, isdigit_not_isspace x (hdig x (by simp))⟩
  · exact ⟨_, _, h, by decide⟩
  · exact ⟨_, _, h, by decide⟩

theorem startsSpace_of_allSpace (w r : List Char) (hne : w ≠ []) (hw : AllSpace w) :
    StartsSpace (w ++ r) := by
  cases w with
  | nil => exact absurd rfl hne
  | cons x t =>
    intro d hd
    simp at hd
    subst hd
    exact hw _ (by simp)

theorem firstToken_iff (s ip : List Char) :
    FirstToken s ip ↔ ∃ r, scanStr s = some (ip, r) := by
  constructor
  · rintro ⟨w0, t1, hs, hw0, hip, hns, ht1⟩
    exact ⟨t1, by rw [hs]; exact scanStr_append w0 ip t1 hw0 hip hns ht1⟩
  · rintro ⟨r, h⟩
    obtain ⟨w, hs, hw, ha, hns, hr⟩ := scanStr_decomp s ip r h
    exact ⟨w, r, hs, hw, ha, hns, hr⟩

theorem first_of_firstToken (s ip : List Char) (h : FirstToken s ip) :
    (sscanf s).first = some ip := by
  obtain ⟨r, hr⟩ := (firstToken_iff s ip).mp h
  rw [sscanf_first, hr]
  rfl

theorem firstToken_of_first (s ip : List Char) (h : (sscanf s).first = some ip) :
    FirstToken s ip := by
  rw [sscanf_first] at h
  cases e : scanStr s with
  | none => simp [e] at h
  | some p =>
    obtain ⟨a, r⟩ := p
    simp only [e, Option.map_some', Option.some.injEq] at h
    subst h
    exact (firstToken_iff s a).mpr ⟨r, e⟩

theorem got4_of_scanned (s ip : List Char) (lp rp : Int) (proto : List Char)
    (h : Scanned s ip lp rp proto) :
    sscanf s = .got4 ip (storedInt lp) (storedInt rp) proto := by
  obtain ⟨w0, t1, hs, hw0, hip, hns, w1, n1, t2, ht1, hw1ne, hw1, hn1, hnd2,
    w2, n2, t3, ht2, hw2, hn2, hnd3, w3, t4, ht3, hw3, hpne, hpns, ht4⟩ := h
  have e1 : scanStr s = some (ip, t1) := by
    rw [hs]
    refine scanStr_append w0 ip t1 hw0 hip hns ?_
    rw [ht1]
    exact startsSpace_of_allSpace w1 _ hw1ne hw1
  have e2 := scanInt_append w1 n1 t2 lp hw1 hn1 hnd2
  have e3 := scanInt_append w2 n2 t3 rp hw2 hn2 hnd3
  have e4 := scanStr_append w3 proto t4 hw3 hpne hpns ht4
  rw [← ht1] at e2
  rw [← ht2] at e3
  rw [← ht3] at e4
  rw [sscanf_eq, e1]
  simp only [e2, e3, e4]

theorem scanned_of_got4 (s : List Char) (a : List Char) (b c : Int) (d : List Char)
    (h : sscanf s = .got4 a b c d) :
    ∃ lp rp, Scanned s a lp rp d ∧ b = storedInt lp ∧ c = storedInt rp := by
  rw [sscanf_eq] at h
  cases e1 : scanStr s with
  | none => simp [e1] at h
  | some p1 =>
    obtain ⟨a1, r1⟩ := p1
    simp only [e1] at h
    cases e2 : scanInt r1 with
    | none => simp [e2] at h
    | some p2 =>
      obtain ⟨b1, r2⟩ := p2
      simp only [e2] at h
      cases e3 : scanInt r2 with
      | none => simp [e3] at h
      | some p3 =>
        obtain ⟨c1, r3⟩ := p3
        simp only [e3] at h
        cases e4 : scanStr r3 with
        | none => simp [e4] at h
        | some p4 =>
          obtain ⟨d1, r4⟩ := p4
          simp only [e4, Scan.got4.injEq] at h
          obtain ⟨rfl, rfl, rfl, rfl⟩ := h
          obtain ⟨w0, hs, hw0, ha, hns, hr1⟩ := scanStr_decomp s a1 r1 e1
          obtain ⟨w1, n1, lp, ht1, hw1, hn1, hb, hnd2⟩ := scanInt_decomp r1 r2 b1 e2
          obtain ⟨w2, n2, rp, ht2, hw2, hn2, hc, hnd3⟩ := scanInt_decomp r2 r3 c1 e3
          obtain ⟨w3, ht3, hw3, hd, hnsd, hr4⟩ := scanStr_decomp r3 d1 r4 e4
          refine ⟨lp, rp, ⟨w0, r1, hs, hw0, ha, hns, w1, n1, r2, ht1, ?_, hw1, hn1, hnd2,
            w2, n2, r3, ht2, hw2, hn2, hnd3, w3, r4, ht3, hw3, hd, hnsd, hr4⟩, hb, hc⟩
          rintro rfl
          obtain ⟨x, t, hx, hxs⟩ := intTextValue_head n1 lp hn1
          have := hr1 x (by rw [ht1, hx]; simp)
          rw [hxs] at this
          exact absurd this (by decide)

theorem firstToken_of_scanned (s ip : List Char) (lp rp : Int) (proto : List Char)
    (h : Scanned s ip lp rp proto) : FirstToken s ip := by
  apply firstToken_of_first
  rw [got4_of_scanned s ip lp rp proto h]
  rfl

theorem overruns_false_iff (cap : Nat) (s : List Char) :
    (sscanf s).overruns cap 10 = false
      ↔ ((∀ ip, FirstToken s ip → ip.length ≤ cap)
        ∧ (∀ ip lp rp proto, Scanned s ip lp rp proto → proto.length ≤ 9)) := by
  constructor
  · intro h
    constructor
    · intro ip hip
      have hf := first_of_firstToken s ip hip
      cases e : sscanf s <;> simp [e, Scan.first, Scan.overruns] at hf h <;> subst hf <;> omega
    · intro ip lp rp proto hsc
      have e := got4_of_scanned s ip lp rp proto hsc
      simp [e, Scan.overruns] at h
      omega
  · rintro ⟨h1, h2⟩
    cases e : sscanf s with
    | eof => rfl
    | got1 a =>
      have := h1 a (firstToken_of_first s a (by rw [e]; rfl))
      simp [Scan.overruns]; omega
    | got2 a b =>
      have := h1 a (firstToken_of_first s a (by rw [e]; rfl))
      simp [Scan.overruns]; omega
    | got3 a b c =>
      have := h1 a (firstToken_of_first s a (by rw [e]; rfl))
      simp [Scan.overruns]; omega
    | got4 a b c d =>
      have := h1 a (firstToken_of_first s a (by rw [e]; rfl))
      obtain ⟨lp, rp, hsc, -, -⟩ := scanned_of_got4 s a b c d e
      have := h2 a lp rp d hsc
      simp [Scan.overruns]; omega

theorem loadLine_skip (cap : Nat) (configs : List ForwardConfig) (line : List Char)
    (h : line = [] ∨ line.head? = some (Char.ofNat 35)) :
    loadLine cap configs line = some configs := by
  unfold loadLine
  rcases h with h | h
  · simp [h]
  · simp [h]

theorem loadLine_scan (cap : Nat) (configs : List ForwardConfig) (line : List Char)
    (h1 : line ≠ []) (h2 : line.head? ≠ some (Char.ofNat 35)) :
    loadLine cap configs line
      = if (sscanf (c_str line)).overruns cap 10 then none
        else
          match sscanf (c_str line) with
          | .got4 _ lp rp protocol =>
            some (configs ++ [⟨⟨0, []⟩, lp, rp, decide (protocol = "UDP".toList)⟩])
          | _ => some configs := by
  have h3 : line.isEmpty = false := by
    cases line with
    | nil => exact absurd rfl h1
    | cons x t => rfl
  unfold loadLine
  simp only [h3, h2, Bool.false_or, decide_False, Bool.false_eq_true, if_false]
  split
  · rfl
  · split <;> simp [ForwardConfig.copy, StdString.copy, StdString.pokeCStr, StdString.empty,
      strcmpEq]

theorem fits_iff (cap : Nat) (line : List Char) :
    Fits cap line ↔ loadLine cap [] line ≠ none := by
  by_cases h1 : line = []
  · simp [Fits, h1, loadLine_skip]
  · by_cases h2 : line.head? = some (Char.ofNat 35)
    · simp [Fits, h2, loadLine_skip]
    · rw [loadLine_scan cap [] line h1 h2]
      simp only [Fits, h1, h2, false_or, ← overruns_false_iff]
      cases ho : (sscanf (c_str line)).overruns cap 10
      · simp only [Bool.false_eq_true, if_false, true_iff]
        split <;> simp
      · simp

theorem loadLine_parses (cap : Nat) (configs : List ForwardConfig) (line ip : List Char)
    (lp rp : Int) (proto : List Char) (h1 : line ≠ [])
    (h2 : line.head? ≠ some (Char.ofNat 35)) (hsc : Scanned (c_str line) ip lp rp proto)
    (hfit : Fits cap line) :
    loadLine cap configs line
      = some (configs
          ++ [⟨⟨0, []⟩, storedInt lp, storedInt rp, decide (proto = "UDP".toList)⟩]) := by
  have ho : (sscanf (c_str line)).overruns cap 10 = false := by
    rw [overruns_false_iff]
    simpa [Fits, h1, h2] using hfit
  rw [loadLine_scan cap configs line h1 h2, ho, got4_of_scanned _ ip lp rp proto hsc]
  simp

theorem loadLine_not_parses (cap : Nat) (configs : List ForwardConfig) (line : List Char)
    (hfit : Fits cap line) (hnp : ¬ Parses line) :
    loadLine cap configs line = some configs := by
  by_cases h1 : line = []
  · exact loadLine_skip cap configs line (Or.inl h1)
  · by_cases h2 : line.head? = some (Char.ofNat 35)
    · exact loadLine_skip cap configs line (Or.inr h2)
    · have ho : (sscanf (c_str line)).overruns cap 10 = false := by
        rw [overruns_false_iff]
        simpa [Fits, h1, h2] using hfit
      rw [loadLine_scan cap configs line h1 h2, ho]
      cases e : sscanf (c_str line) with
      | got4 a b c d =>
        obtain ⟨lp, rp, hsc, -, -⟩ := scanned_of_got4 _ a b c d e
        exact absurd ⟨h1, h2, a, lp, rp, d, hsc⟩ hnp
      | _ => simp

theorem not_parses_of_loadLine (cap : Nat) (line : List Char)
    (h : loadLine cap [] line = some []) : ¬ Parses line := by
  rintro ⟨h1, h2, ip, lp, rp, proto, hsc⟩
  have hfit : Fits cap line := (fits_iff cap line).mpr (by rw [h]; simp)
  rw [loadLine_parses cap [] line ip lp rp proto h1 h2 hsc hfit] at h
  simp at h

/-- C10, the claim refuted: `loadConfig` produces a rule from a line of five fields, from a
line whose ports are 0 and 70000, from a line of three fields whose third field is not wholly
an integer, and from a line of two fields. -/
theorem loadConfig_accepts_lines_outside_format :
    loadLine 15 [] "1.2.3.4 5000 6000 UDP extra".toList = some [⟨⟨0, []⟩, 5000, 6000, true⟩]
    ∧ (specFields [] "1.2.3.4 5000 6000 UDP extra".toList).length = 5
    ∧ loadLine 15 [] "1.2.3.4 0 70000 TCP".toList = some [⟨⟨0, []⟩, 0, 70000, false⟩]
    ∧ loadLine 15 [] "1.2.3.4 5000 6000x".toList = some [⟨⟨0, []⟩, 5000, 6000, false⟩]
    ∧ (specFields [] "1.2.3.4 5000 6000x".toList).length = 3
    ∧ loadLine 15 [] "1.2.3.4 5000-6000UDP".toList = some [⟨⟨0, []⟩, 5000, -6000, true⟩]
    ∧ (specFields [] "1.2.3.4 5000-6000UDP".toList).length = 2 := by
  decide

/-- C10, amended: for a line none of whose tokens overruns its destination (first token of at
most `cap` characters, last token of at most 9), `loadConfig` produces a rule from the line,
exactly one, if and only if the line is not empty, does not start with `#`, and its text
before the first NUL reads as: optional white space, a token, white space, an optionally
signed run of digits not followed by a digit, optional white space, a second such run,
optional white space, and one more token; every other such line adds no rule. The rule
carries the two integers as an `int` stores them, unchecked against any range, and `isUDP`
for the token `UDP`; what follows the fourth token is not examined. -/
theorem loadLine_rule_iff_scanned (cap : Nat) (line : List Char) (h : Fits cap line) :
    ((∃ rule, loadLine cap [] line = some [rule]) ↔ Parses line)
    ∧ (loadLine cap [] line = some [] ↔ ¬ Parses line)
    ∧ (∀ ip lp rp proto, line ≠ [] → line.head? ≠ some (Char.ofNat 35) →
        Scanned (c_str line) ip lp rp proto →
        ∃ rule, loadLine cap [] line = some [rule] ∧ rule.localPort = storedInt lp
          ∧ rule.remotePort = storedInt rp ∧ rule.isUDP = decide (proto = "UDP".toList)) := by
  have hp : ∀ ip lp rp proto, line ≠ [] → line.head? ≠ some (Char.ofNat 35) →
      Scanned (c_str line) ip lp rp proto →
      ∃ rule, loadLine cap [] line = some [rule] ∧ rule.localPort = storedInt lp
        ∧ rule.remotePort = storedInt rp ∧ rule.isUDP = decide (proto = "UDP".toList) := by
    intro ip lp rp proto h1 h2 hsc
    exact ⟨_, by rw [loadLine_parses cap [] line ip lp rp proto h1 h2 hsc h]; rfl,
      rfl, rfl, rfl⟩
  refine ⟨⟨?_, ?_⟩, ⟨not_parses_of_loadLine cap line, loadLine_not_parses cap [] line h⟩, hp⟩
  · rintro ⟨rule, hr⟩
    by_contra hnp
    rw [loadLine_not_parses cap [] line h hnp] at hr
    simp at hr
  · rintro ⟨h1, h2, ip, lp, rp, proto, hsc⟩
    obtain ⟨rule, hr, -⟩ := hp ip lp rp proto h1 h2 hsc
    exact ⟨rule, hr⟩

theorem loadLine_rule_iff_scanned_witness :
    Fits 15 "1.2.3.4 5000-6000UDP".toList ∧ Parses "1.2.3.4 5000-6000UDP".toList :=
  ⟨(fits_iff 15 _).mpr (by decide),
   (loadLine_rule_iff_scanned 15 "1.2.3.4 5000-6000UDP".toList
      ((fits_iff 15 _).mpr (by decide))).1.mp ⟨⟨⟨0, []⟩, 5000, -6000, true⟩, by decide⟩⟩

theorem loadLines_collects (cap : Nat) (lines : List (List Char))
    (h : ∀ l ∈ lines, Fits cap l) (configs : List ForwardConfig) :
    ∃ rules, loadLines cap configs lines = some (configs ++ rules) ∧ Collects lines rules
      ∧ (rules = [] ↔ ∀ l ∈ lines, ¬ Parses l) := by
  induction lines generalizing configs with
  | nil => exact ⟨[], by simp [loadLines], Collects.nil, by simp⟩
  | cons l ls ih =>
    have hl : Fits cap l := h l (by simp)
    have hls : ∀ x ∈ ls, Fits cap x := fun x hx => h x (by simp [hx])
    by_cases hp : Parses l
    · obtain ⟨h1, h2, ip, lp, rp, proto, hsc⟩ := hp
      obtain ⟨rules, hr, hc, -⟩ := ih hls
        (configs ++ [⟨⟨0, []⟩, storedInt lp, storedInt rp, decide (proto = "UDP".toList)⟩])
      refine ⟨⟨⟨0, []⟩, storedInt lp, storedInt rp, decide (proto = "UDP".toList)⟩ :: rules,
        ?_, Collects.take l ls rules ip lp rp proto _ h1 h2 hsc rfl rfl rfl hc, ?_⟩
      · simp only [loadLines, loadLine_parses cap configs l ip lp rp proto h1 h2 hsc hl, hr]
        simp
      · constructor
        · intro h0
          simp at h0
        · intro hall
          exact absurd ⟨h1, h2, ip, lp, rp, proto, hsc⟩ (hall l (by simp))
    · obtain ⟨rules, hr, hc, hiff⟩ := ih hls configs
      refine ⟨rules, ?_, Collects.skip l ls rules hp hc, ?_⟩
      · simp only [loadLines, loadLine_not_parses cap configs l hl hp, hr]
      · rw [hiff]
        constructor
        · intro hall x hx
          simp only [List.mem_cons] at hx
          rcases hx with rfl | hx
          · exact hp
          · exact hall x hx
        · intro hall x hx
          exact hall x (by simp [hx])

/-- C8, the claim refuted: `loadConfig` does not skip a malformed line: from a file whose
second line has five fields it produces two rules, one for each line. -/
theorem loadConfig_keeps_malformed_line :
    loadConfig 15 new
        (some ["192.168.1.10 5000 6000 TCP".toList, "192.168.1.10 5001 6001 UDP extra".toList])
      = some (true, ⟨[tcpRule, udpRule], [], false⟩)
    ∧ (specFields [] "192.168.1.10 5001 6001 UDP extra".toList).length = 5 := by
  decide

/-- C8, amended: for every sequence of input lines none of which overruns a destination of
`sscanf` (first token of at most `cap` characters, last token of a line that reads as a rule
of at most 9), `loadConfig`, starting from an empty rule list, returns, having skipped without
stopping every empty line, every line starting with `#` and every line that does not read as
a token, two integers and a token; the rules it produces are those of the lines that read so,
whether or not they have exactly four fields, in file order, one per line, each with the ports
and `isUDP` of its own line; and it returns false if and only if no line produced a rule. -/
theorem loadConfig_collects_scanned_lines (cap : Nat) (lines : List (List Char))
    (h : ∀ l ∈ lines, Fits cap l) :
    ∃ rules, loadConfig cap new (some lines) = some (!rules.isEmpty, ⟨rules, [], false⟩)
      ∧ Collects lines rules
      ∧ (rules = [] ↔ ∀ l ∈ lines, ¬ Parses l) := by
  obtain ⟨rules, hr, hc, hiff⟩ := loadLines_collects cap lines h []
  refine ⟨rules, ?_, hc, hiff⟩
  simp only [loadConfig, new, hr]
  simp

theorem loadConfig_collects_scanned_lines_witness :
    (∀ l ∈ ["192.168.1.10 5000 6000 TCP".toList, "# comment".toList, [], "junk".toList,
        "192.168.1.10 5001 6001 UDP".toList], Fits 15 l)
    ∧ ∃ rules,
        loadConfig 15 new (some ["192.168.1.10 5000 6000 TCP".toList, "# comment".toList, [],
            "junk".toList, "192.168.1.10 5001 6001 UDP".toList])
          = some (!rules.isEmpty, ⟨rules, [], false⟩)
        ∧ rules.length = 2 := by
  have hf : ∀ l ∈ ["192.168.1.10 5000 6000 TCP".toList, "# comment".toList, [], "junk".toList,
      "192.168.1.10 5001 6001 UDP".toList], Fits 15 l := by
    intro l hl
    simp only [List.mem_cons, List.mem_singleton, List.not_mem_nil, or_false] at hl
    rcases hl with rfl | rfl | rfl | rfl | rfl <;> exact (fits_iff 15 _).mpr (by decide)
  obtain ⟨rules, hr, -, -⟩ := loadConfig_collects_scanned_lines 15 _ hf
  refine ⟨hf, rules, hr, ?_⟩
  have he : loadConfig 15 new (some ["192.168.1.10 5000 6000 TCP".toList, "# comment".toList,
      [], "junk".toList, "192.168.1.10 5001 6001 UDP".toList])
      = some (true, ⟨[tcpRule, udpRule], [], false⟩) := by decide
  rw [he] at hr
  simp only [Option.some.injEq, Prod.mk.injEq, PortForwarder.mk.injEq] at hr
  rw [← hr.2.1]
  rfl

theorem loadLine_localIP (cap : Nat) (configs out : List ForwardConfig) (line : List Char)
    (h : loadLine cap configs line = some out) :
    ∃ rules, out = configs ++ rules ∧ ∀ c ∈ rules, c.localIP = ⟨0, []⟩ := by
  by_cases h1 : line = []
  · rw [loadLine_skip cap configs line (Or.inl h1)] at h
    exact ⟨[], by simpa using h.symm, by simp⟩
  · by_cases h2 : line.head? = some (Char.ofNat 35)
    · rw [loadLine_skip cap configs line (Or.inr h2)] at h
      exact ⟨[], by simpa using h.symm, by simp⟩
    · rw [loadLine_scan cap configs line h1 h2] at h
      split at h
      · simp at h
      · split at h
        · simp only [Option.some.injEq] at h
          exact ⟨_, h.symm, by simp⟩
        · exact ⟨[], by simpa using h.symm, by simp⟩

theorem loadLines_localIP (cap : Nat) (lines : List (List Char))
    (configs out : List ForwardConfig) (h : loadLines cap configs lines = some out) :
    ∃ rules, out = configs ++ rules ∧ ∀ c ∈ rules, c.localIP = ⟨0, []⟩ := by
  induction lines generalizing configs with
  | nil =>
    simp only [loadLines, Option.some.injEq] at h
    exact ⟨[], by simp [h], by simp⟩
  | cons l ls ih =>
    simp only [loadLines] at h
    cases e : loadLine cap configs l with
    | none => simp [e] at h
    | some mid =>
      simp only [e] at h
      obtain ⟨r1, hm, hr1⟩ := loadLine_localIP cap configs mid l e
      obtain ⟨r2, ho, hr2⟩ := ih mid h
      refine ⟨r1 ++ r2, by rw [ho, hm, List.append_assoc], ?_⟩
      intro c hc
      rcases List.mem_append.mp hc with hc | hc
      · exact hr1 c hc
      · exact hr2 c hc

/-- C9, the code at a failing input: for the line `192.168.1.10 5000 6000 TCP`, which `sscanf`
scans as the four fields `192.168.1.10`, 5000, 6000 and `TCP`, `loadConfig` appends one rule
whose ports are 5000 and 6000 and whose `isUDP` is false, but whose `localIP` is the empty
string, of size 0, not the text `192.168.1.10`; and whatever the lines of the file, the
`localIP` of every rule `loadConfig` produces is the empty string. -/
theorem loadConfig_leaves_localIP_empty (cap : Nat) (lines : List (List Char)) :
    (loadConfig 15 new (some ["192.168.1.10 5000 6000 TCP".toList])).map
        (fun loaded => loaded.2.configs.map
          (fun c => (c.localIP.str, c.localIP.size, c.localPort, c.remotePort, c.isUDP)))
      = some [([], 0, 5000, 6000, false)]
    ∧ sscanf (c_str "192.168.1.10 5000 6000 TCP".toList)
      = .got4 "192.168.1.10".toList 5000 6000 "TCP".toList
    ∧ (loadConfig cap new (some lines)).map
        (fun loaded => loaded.2.configs.map (fun c => c.localIP.str))
      = (loadConfig cap new (some lines)).map
        (fun loaded => List.replicate loaded.2.configs.length []) := by
  refine ⟨by decide, by decide, ?_⟩
  cases e : loadLines cap [] lines with
  | none => simp [loadConfig, new, e]
  | some out =>
    obtain ⟨rules, ho, hr⟩ := loadLines_localIP cap lines [] out e
    simp only [List.nil_append] at ho
    subst ho
    simp only [loadConfig, new, e, Option.map_some', Option.some.injEq]
    rw [List.eq_replicate_iff]
    refine ⟨by simp, ?_⟩
    intro b hb
    simp only [List.mem_map] at hb
    obtain ⟨c, hc, rfl⟩ := hb
    rw [hr c hc]
    rfl

theorem closes_map_close (fds : List Int) (t : List Event) :
    closes (fds.map Event.close ++ t) = fds ++ closes t := by
  induction fds with
  | nil => rfl
  | cons fd fds ih => simp [closes, ih]

/-- C2: for every engine state, `stop` leaves `running` false, has closed (once each, in
order) exactly the descriptors that were in `sockets` before the call, and leaves `sockets`
empty; on a state with `running` false and `sockets` empty it changes nothing and closes
nothing, so a second `stop` after a first one is such a no-op. -/
theorem stop_closes_registry (self : PortForwarder) (configs : List ForwardConfig) :
    (stop self).2.running = false
    ∧ closes (stop self).1 = self.sockets
    ∧ (stop self).2.sockets = []
    ∧ (stop self).2.configs = self.configs
    ∧ (stop ⟨configs, [], false⟩).2 = ⟨configs, [], false⟩
    ∧ closes (stop ⟨configs, [], false⟩).1 = []
    ∧ (stop (stop self).2).2 = (stop self).2
    ∧ closes (stop (stop self).2).1 = [] := by
  simp [stop, closes_map_close, closes]

theorem recv_fst (o : RecvOutcome) (buffer : List Char) :
    (recv o buffer 4096).1 = retOf o := by
  cases o <;> simp [recv, retOf]

theorem recv_chunk (o : RecvOutcome) (buffer : List Char) :
    (recv o buffer 4096).2.take (recv o buffer 4096).1.toNat = chunkOf o := by
  cases o with
  | error => simp [recv, chunkOf]
  | bytes bs =>
    simp only [recv, chunkOf, Int.toNat_ofNat]
    rw [List.take_append_of_le_length (by simp [Nat.min_comm])]
    rw [List.take_take]
    by_cases hl : bs.length ≤ 4096
    · rw [List.take_of_length_le (by omega), List.take_of_length_le hl]
    · congr 1
      omega

theorem relayLoop_sends (client broadcast : Int) (buffer : List Char) (iters : List RecvIter) :
    sends (relayLoop client broadcast buffer iters).trace
      = (chunksBeforeStop iters).map (fun c => (broadcast, c)) := by
  induction iters generalizing buffer with
  | nil => simp [relayLoop, sends, chunksBeforeStop]
  | cons it rest ih =>
    unfold relayLoop
    by_cases hr : it.running = true
    · by_cases hz : (recv it.recv buffer 4096).1 ≤ 0
      · have hz2 : retOf it.recv ≤ 0 := by rwa [recv_fst] at hz
        simp [hr, hz, sends, chunksBeforeStop, stopsRelay, hz2]
      · have hz2 : ¬ retOf it.recv ≤ 0 := by rwa [recv_fst] at hz
        simp only [hr, hz, sends, Bool.not_true, Bool.false_eq_true, if_false]
        rw [ih, recv_chunk]
        simp [chunksBeforeStop, stopsRelay, hr, hz2]
    · simp [hr, sends, chunksBeforeStop, stopsRelay]

theorem sends_append (s t : List Event) : sends (s ++ t) = sends s ++ sends t := by
  induction s with
  | nil => rfl
  | cons e s ih => cases e <;> simp [sends, ih]

/-- C3: in one TCP relay task, when the creation of the outbound socket and `connect` both
succeed, the calls of `send` are all on the broadcast socket and carry, one call per chunk and
in order, the chunks received before the first turn at which `recv` returns zero or a negative
value or `running` is observed false, so that the bytes sent, concatenated, are those chunks
concatenated; when the creation or `connect` fails, `send` is never called. -/
theorem relay_sends_received_chunks (client : Int) (config : ForwardConfig) (env : RelayEnv) :
    sends (relay client config env).trace
      = (if env.socketRet < 0 ∨ env.connectRet < 0 then []
         else (chunksBeforeStop env.iters).map (fun c => (env.socketRet, c)))
    ∧ ((sends (relay client config env).trace).map Prod.snd).flatten
      = (if env.socketRet < 0 ∨ env.connectRet < 0 then []
         else (chunksBeforeStop env.iters).flatten) := by
  have h : sends (relay client config env).trace
      = (if env.socketRet < 0 ∨ env.connectRet < 0 then []
         else (chunksBeforeStop env.iters).map (fun c => (env.socketRet, c))) := by
    unfold relay
    by_cases hs : env.socketRet < 0
    · simp [hs, sends]
    · by_cases hc : env.connectRet < 0
      · simp [hs, hc, sends]
      · simp only [hs, hc, if_false, or_self, sends_append, relayLoop_sends]
        split <;> simp [sends]
  refine ⟨h, ?_⟩
  rw [h]
  split
  · rfl
  · simp [List.map_map, Function.comp_def]

theorem closes_append (s t : List Event) : closes (s ++ t) = closes s ++ closes t := by
  induction s with
  | nil => rfl
  | cons e s ih => cases e <;> simp [closes, ih]

theorem relayLoop_closes (client broadcast : Int) (buffer : List Char) (iters : List RecvIter) :
    closes (relayLoop client broadcast buffer iters).trace = [] := by
  induction iters generalizing buffer with
  | nil => simp [relayLoop, closes]
  | cons it rest ih =>
    unfold relayLoop
    by_cases hr : it.running = true
    · by_cases hz : (recv it.recv buffer 4096).1 ≤ 0
      · simp [hr, hz, closes]
      · simp [hr, hz, closes, ih]
    · simp [hr, closes]

theorem relayLoop_finished (client broadcast : Int) (buffer : List Char)
    (iters : List RecvIter) :
    (relayLoop client broadcast buffer iters).finished = iters.any stopsRelay := by
  induction iters generalizing buffer with
  | nil => simp [relayLoop]
  | cons it rest ih =>
    unfold relayLoop
    by_cases hr : it.running = true
    · by_cases hz : (recv it.recv buffer 4096).1 ≤ 0
      · have hz2 : retOf it.recv ≤ 0 := by rwa [recv_fst] at hz
        simp [hr, hz, stopsRelay, hz2]
      · have hz2 : ¬ retOf it.recv ≤ 0 := by rwa [recv_fst] at hz
        simp [hr, hz, stopsRelay, hz2, ih]
    · simp [hr, stopsRelay]

/-- C7: in every execution of one TCP relay task, whatever `socket`, `connect`, `recv` and
`running` yield, the task makes no call of `close` before it ends, and when it ends its calls
of `close` are exactly one on the client descriptor followed, when `socket` returned a
descriptor, by exactly one on that descriptor; the task ends as soon as `socket` or `connect`
fails or a turn of the copy loop sees `running` false or a `recv` result that is zero or
negative. -/
theorem relay_closes_both_once (client : Int) (config : ForwardConfig) (env : RelayEnv) :
    closes (relay client config env).trace
      = (if (relay client config env).finished then
           (if env.socketRet < 0 then [client] else [client, env.socketRet])
         else [])
    ∧ (relay client config env).finished
      = (decide (env.socketRet < 0) || decide (env.connectRet < 0)
          || env.iters.any stopsRelay) := by
  unfold relay
  by_cases hs : env.socketRet < 0
  · simp [hs, closes]
  · by_cases hc : env.connectRet < 0
    · simp [hs, hc, closes]
    · simp only [hs, hc, if_false, closes_append, relayLoop_closes, relayLoop_finished]
      cases env.iters.any stopsRelay <;> simp [closes]

theorem acceptLoop_finished (sock : Int) (config : ForwardConfig) (iters : List AcceptIter) :
    (acceptLoop sock config iters).finished = iters.any (fun it => !it.running) := by
  induction iters with
  | nil => simp [acceptLoop]
  | cons it rest ih =>
    unfold acceptLoop
    by_cases hr : it.running = true
    · by_cases hz : it.accept < 0 <;> simp [hr, hz, ih]
    · simp [hr]

/-- C5, the claim refuted: a TCP worker whose first `accept` returns -1 while `running` stays
true does not leave the loop: it calls `accept` again, spawns a relay task for the client then
accepted, and has not returned. -/
theorem accept_failure_stays_in_loop :
    (forwardTCP new tcpRule ⟨3, 0, [⟨true, -1⟩, ⟨true, 7⟩]⟩).1
      = ⟨[.socket .stream 3, .setsockopt 3 .reuseaddr, .bind 3 [] 5000, .listen 3 5,
          .accept 3, .accept 3, .spawnRelay 7 tcpRule], false⟩ := by
  decide

/-- C5, amended: in the accept loop of a TCP worker, an `accept` that returns a negative result
spawns no relay task and takes the worker back to the test of `running`: the rest of the run
is that of the loop on the following turns, so the worker leaves the loop and returns when
`running` is then observed false, and calls `accept` again when it is observed true. The loop
has ended exactly when some turn observed `running` false. -/
theorem accept_failure_retests_running (sock : Int) (config : ForwardConfig) (a b : Int)
    (rest iters : List AcceptIter) (h : a < 0) :
    acceptLoop sock config (⟨true, a⟩ :: rest)
      = ⟨.accept sock :: (acceptLoop sock config rest).trace,
         (acceptLoop sock config rest).finished⟩
    ∧ acceptLoop sock config (⟨true, a⟩ :: ⟨false, b⟩ :: rest) = ⟨[.accept sock], true⟩
    ∧ (acceptLoop sock config (⟨true, a⟩ :: ⟨true, b⟩ :: rest)).trace.take 2
      = [.accept sock, .accept sock]
    ∧ (acceptLoop sock config iters).finished = iters.any (fun it => !it.running) := by
  refine ⟨?_, ?_, ?_, ?_⟩
  · simp [acceptLoop, h]
  · simp [acceptLoop, h]
  · by_cases hb : b < 0 <;> simp [acceptLoop, h, hb]
  · simp [acceptLoop_finished]

theorem accept_failure_retests_running_witness :
    (-1 : Int) < 0
    ∧ acceptLoop 3 tcpRule [⟨true, -1⟩, ⟨false, 0⟩] = ⟨[.accept 3], true⟩ :=
  ⟨by decide, (accept_failure_retests_running 3 tcpRule (-1) 0 [] [] (by decide)).2.1⟩

theorem udpLoop_finished (sock : Int) (port : Nat) (buffer : List Char)
    (iters : List RecvIter) :
    (udpLoop sock port buffer iters).finished = iters.any (fun it => !it.running) := by
  induction iters generalizing buffer with
  | nil => simp [udpLoop]
  | cons it rest ih =>
    unfold udpLoop
    by_cases hr : it.running = true
    · by_cases hz : (recv it.recv buffer 4096).1 ≤ 0 <;> simp [hr, hz, ih]
    · simp [hr]

/-- C6: in the receive loop of a UDP worker, a turn with `running` true whose `recv` returns
zero or a negative value issues no `sendto` and does not end the loop: the rest of the run is
that of the loop on the following turns, so that when `running` is next observed true the next
call is again `recv` on the same socket; and the loop has ended exactly when some turn observed
`running` false. -/
theorem udp_nonpositive_recv_continues (sock : Int) (port : Nat) (buffer : List Char)
    (o o2 : RecvOutcome) (rest iters : List RecvIter) (h : (recv o buffer 4096).1 ≤ 0) :
    udpLoop sock port buffer (⟨true, o⟩ :: rest)
      = ⟨.recv sock 4096 :: (udpLoop sock port (recv o buffer 4096).2 rest).trace,
         (udpLoop sock port (recv o buffer 4096).2 rest).finished⟩
    ∧ sendtos (udpLoop sock port buffer (⟨true, o⟩ :: rest)).trace
      = sendtos (udpLoop sock port (recv o buffer 4096).2 rest).trace
    ∧ (udpLoop sock port buffer (⟨true, o⟩ :: ⟨true, o2⟩ :: rest)).trace.take 2
      = [.recv sock 4096, .recv sock 4096]
    ∧ (udpLoop sock port buffer iters).finished = iters.any (fun it => !it.running) := by
  refine ⟨?_, ?_, ?_, ?_⟩
  · simp [udpLoop, h]
  · simp [udpLoop, h, sendtos]
  · by_cases hb : (recv o2 (recv o buffer 4096).2 4096).1 ≤ 0 <;> simp [udpLoop, h, hb]
  · simp [udpLoop_finished]

theorem udp_nonpositive_recv_continues_witness :
    (recv .error [] 4096).1 ≤ 0
    ∧ udpLoop 3 6001 [] [⟨true, .error⟩, ⟨true, .bytes ['h', 'i']⟩]
      = ⟨[.recv 3 4096, .recv 3 4096, .sendto 3 ['h', 'i'] INADDR_BROADCAST 6001], false⟩ :=
  ⟨by decide,
   (udp_nonpositive_recv_continues 3 6001 [] .error .error
      [⟨true, .bytes ['h', 'i']⟩] [] (by decide)).1.trans (by decide)⟩

theorem sendtos_append (s t : List Event) : sendtos (s ++ t) = sendtos s ++ sendtos t := by
  induction s with
  | nil => rfl
  | cons e s ih => cases e <;> simp [sendtos, ih]

theorem owedSendto_of_pos (sock : Int) (remotePort : Int) (it : RecvIter) (buffer : List Char)
    (h : ¬ (recv it.recv buffer 4096).1 ≤ 0) :
    owedSendto sock remotePort it
      = some (sock, (recv it.recv buffer 4096).2.take (recv it.recv buffer 4096).1.toNat,
              INADDR_BROADCAST, htons remotePort) := by
  rw [recv_chunk]
  rw [recv_fst] at h
  cases hr : it.recv with
  | error => simp [hr, retOf] at h
  | bytes bs =>
    have hne : bs ≠ [] := by
      rintro rfl
      simp [hr, retOf] at h
    simp [owedSendto, hr, chunkOf, hne, INADDR_BROADCAST, htons]

theorem owedSendto_of_nonpos (sock : Int) (remotePort : Int) (it : RecvIter)
    (buffer : List Char) (h : (recv it.recv buffer 4096).1 ≤ 0) :
    owedSendto sock remotePort it = none := by
  rw [recv_fst] at h
  cases hr : it.recv with
  | error => simp [owedSendto, hr]
  | bytes bs =>
    have hb : bs = [] := by
      simp only [hr, retOf] at h
      have : bs.length = 0 := by omega
      exact List.length_eq_zero.mp this
    simp [owedSendto, hr, hb]

theorem udpLoop_sendtos (sock : Int) (remotePort : Int) (buffer : List Char)
    (iters : List RecvIter) :
    sendtos (udpLoop sock (htons remotePort) buffer iters).trace
      = (iters.takeWhile (fun it => it.running)).filterMap (owedSendto sock remotePort) := by
  induction iters generalizing buffer with
  | nil => simp [udpLoop, sendtos]
  | cons it rest ih =>
    unfold udpLoop
    by_cases hr : it.running = true
    · by_cases hz : (recv it.recv buffer 4096).1 ≤ 0
      · simp [hr, hz, sendtos, ih, owedSendto_of_nonpos sock remotePort it buffer hz]
      · simp [hr, hz, sendtos, ih, owedSendto_of_pos sock remotePort it buffer hz]
    · simp [hr, sendtos]

theorem forwardUDP_sendtos (self : PortForwarder) (config : ForwardConfig) (env : UdpEnv) :
    sendtos (forwardUDP self config env).1.trace
      = (if env.socketRet < 0 ∨ env.bindRet < 0 then []
         else (env.iters.takeWhile (fun it => it.running)).filterMap
                (owedSendto env.socketRet config.remotePort)) := by
  unfold forwardUDP
  by_cases hs : env.socketRet < 0
  · simp [hs, sendtos]
  · by_cases hb : env.bindRet < 0
    · simp [hs, hb, sendtos]
    · simp [hs, hb, sendtos, sendtos_append, udpLoop_sendtos]

/-- C4, the claim refuted: a datagram of 4097 bytes is forwarded by one `sendto` of 4096 bytes,
and for a rule whose `remotePort` is 70000 the `sendto` goes to port 4464. -/
theorem udp_payload_cut_and_port_wrapped :
    (sendtos (forwardUDP new udpRule
        ⟨3, 0, [], [⟨true, .bytes (List.replicate 4097 (Char.ofNat 120))⟩]⟩).1.trace).map
      (fun s => (s.1, s.2.1.length, s.2.2)) = [(3, 4096, 4294967295, 6001)]
    ∧ sendtos (forwardUDP new { udpRule with remotePort := 70000 }
        ⟨3, 0, [], [⟨true, .bytes ['h', 'i']⟩]⟩).1.trace
      = [(3, ['h', 'i'], 4294967295, 4464)] := by
  constructor
  · have hne : (List.replicate 4097 (Char.ofNat 120)).isEmpty = false := rfl
    have hlen : ((List.replicate 4097 (Char.ofNat 120)).take 4096).length = 4096 := by
      rw [List.length_take, List.length_replicate]
      decide
    rw [forwardUDP_sendtos]
    simp only [owedSendto, udpRule, hne, List.takeWhile, List.filterMap, List.map, hlen]
    decide
  · decide

/-- C4, amended: a UDP worker whose socket is created and bound issues, for the turns of its
loop before `running` is first observed false and in their order, exactly one `sendto` per
non-empty datagram received and none for any other `recv` result; each is on the socket the
datagram was received on, goes to 255.255.255.255 on port `remotePort` modulo 65536, and
carries the first 4096 bytes of the datagram, that is the whole payload of a datagram of at
most 4096 bytes. A worker whose socket creation or `bind` fails calls no `sendto`. -/
theorem udp_forwards_each_datagram_once (self : PortForwarder) (config : ForwardConfig)
    (env : UdpEnv) (it : RecvIter) (bs : List Char) :
    sendtos (forwardUDP self config env).1.trace
      = (if env.socketRet < 0 ∨ env.bindRet < 0 then []
         else (env.iters.takeWhile (fun it => it.running)).filterMap
                (owedSendto env.socketRet config.remotePort))
    ∧ owedSendto env.socketRet config.remotePort ⟨it.running, .bytes bs⟩
      = (if bs.isEmpty then none
         else some (env.socketRet, bs.take 4096, 4294967295,
                    (config.remotePort % 65536).toNat))
    ∧ owedSendto env.socketRet config.remotePort ⟨it.running, .error⟩ = none
    ∧ (if bs.length ≤ 4096 then bs.take 4096 = bs else (bs.take 4096).length = 4096) := by
  refine ⟨forwardUDP_sendtos self config env, ?_, ?_, ?_⟩
  · simp [owedSendto]
  · simp [owedSendto]
  · split
    · exact List.take_of_length_le (by assumption)
    · simp only [List.length_take]
      omega

end PortForwarder
